import Mathlib

/-!
# Verification of the story-room realtime session core

Shallow embedding of the two-player narrative session client
(`src/app/duo/room/[code]/page.tsx`, `src/app/solo/page.tsx`) and the
scenario-script parser shared by the lobby and the solo importer.

Modelling conventions:
* JavaScript `Record<string, number>` objects are modelled as ordered
  association lists `List (String × Int)`; property assignment `obj[k] = v`
  updates the value in place when the key exists (keeping its position) and
  appends otherwise, exactly as JS object insertion order behaves.
* JS numbers that are only ever integers in the program (`version`, effect
  deltas, timestamps) are modelled as `Int`.
* The handlers installed on the realtime channel are modelled as pure
  functions from the previous local state to the next local state, because
  each `setX(prev => ...)` callback is such a function.
-/

set_option maxHeartbeats 1000000

namespace StoryRoom

/-- The two participant roles / turn values (`type Turn = "P1" | "P2"`). -/
inductive Turn where
  | P1
  | P2
deriving DecidableEq, Repr

/-- `shared.turn === "P1" ? "P2" : "P1"` — the opposite role. -/
def Turn.opposite : Turn → Turn
  | .P1 => .P2
  | .P2 => .P1

/-- `type Choice = { text: string; next: string; effects?: Record<string, number> }`. -/
structure Choice where
  text : String
  next : String
  effects : Option (List (String × Int))
deriving DecidableEq, Repr

/-- `type Scene` — a linear scene or an ending (tagged by `kind`). -/
inductive PScene where
  | scene (id : String) (body : List String) (choices : List Choice)
  | ending (id : String) (title : String) (body : List String)
deriving DecidableEq, Repr

/-- `type Scenario = { title: string; start: string; scenes: Scene[] }`. -/
structure Scenario where
  title : String
  start : String
  scenes : List PScene
deriving DecidableEq, Repr

/-- `type SharedState = { sceneId; vars; turn; version }` — the replicated
session document. -/
structure SharedState where
  sceneId : String
  vars : List (String × Int)
  turn : Turn
  version : Int
deriving DecidableEq, Repr

/-- `type Message` — one NarrativeLog entry.  The optional `edited?: boolean`
field is modelled as a `Bool` defaulting to `false` (the code only ever tests
its truthiness, so `undefined` and `false` are indistinguishable). -/
structure Message where
  id : String
  role : Turn
  name : String
  sceneId : String
  choiceText : String
  text : String
  ts : Int
  edited : Bool := false
deriving DecidableEq, Repr

/-- Lookup of `obj[k]` in a JS object modelled as an ordered assoc list:
`undefined` becomes `none` (first binding of the key, and keys are unique in
any list built by `upsert`). -/
def lookupVar : List (String × Int) → String → Option Int
  | [], _ => none
  | p :: t, k => if p.1 == k then some p.2 else lookupVar t k

/-- JS property assignment `obj[k] = v`: replace the value in place when the
key is present (keeping its position), append `(k, v)` at the end otherwise. -/
def upsert : List (String × Int) → String → Int → List (String × Int)
  | [], k, v => [(k, v)]
  | p :: t, k, v => if p.1 == k then (k, v) :: t else p :: upsert t k v

/-- The loop body of `applyEffects`:
`for (const [k, v] of Object.entries(effects)) next[k] = (next[k] ?? 0) + v`,
starting from the spread copy `{ ...vars }`. -/
def applyEffectsList (vars : List (String × Int)) (es : List (String × Int)) :
    List (String × Int) :=
  es.foldl (fun next p => upsert next p.1 ((lookupVar next p.1).getD 0 + p.2)) vars

/-- `applyEffects(vars, effects)` from the duo room page (the solo page's
`applyEffects` performs the identical computation inside `setVars`):
`if (!effects) return vars;` then the accumulation loop. -/
def applyEffects (vars : List (String × Int)) (effects : Option (List (String × Int))) :
    List (String × Int) :=
  match effects with
  | none => vars
  | some es => applyEffectsList vars es

/-- The `state:update` broadcast handler:
`setShared(prev => (!prev || incoming.version > prev.version ? incoming : prev))`. -/
def receiveStateUpdate (prev : Option SharedState) (incoming : SharedState) :
    Option SharedState :=
  match prev with
  | none => some incoming
  | some p => if incoming.version > p.version then some incoming else some p

/-- Stable insertion (earlier list elements stay before later elements with an
equal timestamp), used to model the stable JS `Array.prototype.sort` with
comparator `(a, b) => a.ts - b.ts`. -/
def insertTs (m : Message) : List Message → List Message
  | [] => [m]
  | x :: t => if m.ts ≤ x.ts then m :: x :: t else x :: insertTs m t

/-- Model of `logs.sort((a, b) => a.ts - b.ts)` (JS sort is stable). -/
def sortByTs : List Message → List Message
  | [] => []
  | x :: t => insertTs x (sortByTs t)

/-- The `msg:add` broadcast handler:
`setLogs(prev => (prev.some(x => x.id === m.id) ? prev : [...prev, m].sort((a, b) => a.ts - b.ts)))`. -/
def receiveMsgAdd (logs : List Message) (m : Message) : List Message :=
  if logs.any (fun x => x.id == m.id) then logs
  else sortByTs (logs ++ [m])

/-- The `msg:update` broadcast handler:
`setLogs(prev => prev.map(x => (x.id === m.id ? { ...m, edited: true } : x)))`. -/
def receiveMsgUpdate (logs : List Message) (m : Message) : List Message :=
  logs.map (fun x => if x.id == m.id then { m with edited := true } else x)

/-- The `next` state computed inside `sendNarrativeAndAdvance`:
`{ sceneId: composerChoice.next, vars: applyEffects(shared.vars, composerChoice.effects),
turn: shared.turn === "P1" ? "P2" : "P1", version: shared.version + 1 }`. -/
def advanceState (shared : SharedState) (c : Choice) : SharedState :=
  { sceneId := c.next
    vars := applyEffects shared.vars c.effects
    turn := if shared.turn = .P1 then .P2 else .P1
    version := shared.version + 1 }

/-- Result of `sendNarrativeAndAdvance`: the updated log, the optional
`msg:add` broadcast, the locally adopted state and the `state:update`
broadcast payload. -/
structure AdvanceResult where
  logs : List Message
  msgBroadcast : Option Message
  localShared : SharedState
  stateBroadcast : SharedState
deriving DecidableEq, Repr

/-- `sendNarrativeAndAdvance()` as a pure function.  `msg` stands for the
`Message` the code builds (with `text` already `trim()`ed); the
`if (msg.text)` truthiness test is the emptiness test on that string. -/
def sendNarrativeAndAdvance (shared : SharedState) (composerChoice : Choice)
    (msg : Message) (logs : List Message) : AdvanceResult :=
  let logs' := if msg.text ≠ "" then sortByTs (logs ++ [msg]) else logs
  let msgB := if msg.text ≠ "" then some msg else none
  let next := advanceState shared composerChoice
  { logs := logs', msgBroadcast := msgB, localShared := next, stateBroadcast := next }

/-- The initial state constructed by P1 on first subscription:
`{ sceneId: scenario.start, vars: {}, turn: "P1", version: 1 }`. -/
def initState (scenario : Scenario) : SharedState :=
  { sceneId := scenario.start, vars := [], turn := .P1, version := 1 }

/-- The state built by the ending-screen restart button (`처음으로`):
`{ sceneId: scenario.start, vars: {}, turn: "P1", version: (shared?.version ?? 0) + 1 }`;
it is adopted locally and broadcast as `state:update`. -/
def restartState (scenario : Scenario) (shared : Option SharedState) : SharedState :=
  { sceneId := scenario.start
    vars := []
    turn := .P1
    version := (shared.map (fun s => s.version)).getD 0 + 1 }

/-- Specification-level helper: the total delta that an effects list
contributes to the variable `k` (sum over all entries keyed `k`). -/
def sumAt (k : String) : List (String × Int) → Int
  | [] => 0
  | p :: t => (if p.1 = k then p.2 else 0) + sumAt k t

/-- Specification-level helper: apply a sequence of effect maps in order via
`applyEffects` (the EffectLedger iterated over several choices). -/
def applySeq (vars : List (String × Int)) (l : List (List (String × Int))) :
    List (String × Int) :=
  l.foldl (fun v e => applyEffects v (some e)) vars

/-! ## ScenarioCompiler: the TXT → Scenario parser

The parser (`parseTxtToScenario` in the lobby, `onTxtUpload` in the solo
page — identical logic) trims each line and dispatches on its first
characters; choice lines are matched against the JavaScript regex
`/^>\s*(.*?)\s*->\s*(\S+)(?:\s*\((.*?)\))?/`.  The regex is embedded below as
a deterministic scanner that mirrors the engine's backtracking order: the
lazy label group grows one character at a time, and at each stop the greedy
tail `\s*->\s*(\S+)` is attempted (greediness of `\s*` and `\S+` is complete
here because each is followed by a token no whitespace character can start);
the trailing optional group is tried once and dropped if it fails. -/

/-- JS `\s` on the characters a text line can contain (ASCII whitespace). -/
def isWs (c : Char) : Bool :=
  c = ' ' || c = '\t' || c = '\n' || c = '\r' || c = '\x0b' || c = '\x0c'

/-- JS `String.prototype.trim()` on the character list of a line. -/
def trimChars (cs : List Char) : List Char :=
  ((cs.dropWhile isWs).reverse.dropWhile isWs).reverse

/-- Greedy `\s*`. -/
def dropWs (cs : List Char) : List Char := cs.dropWhile isWs

/-- `\s*->` at the current position (greedy `\s*` then the literal arrow). -/
def matchArrow (cs : List Char) : Option (List Char) :=
  match dropWs cs with
  | '-' :: '>' :: rest => some rest
  | _ => none

/-- Greedy `\S+` prefix (possibly empty — emptiness is checked by the caller). -/
def takeNonWs (cs : List Char) : List Char := cs.takeWhile (fun c => !isWs c)

/-- Lazy `(.*?)\)`: capture up to the first `)`; fails when no `)` follows on
the line (`.` does not match a line terminator). -/
def lazyUntilParen : List Char → Option (List Char)
  | [] => none
  | c :: t =>
    if c = ')' then some []
    else if c = '\n' || c = '\r' then none
    else (lazyUntilParen t).map (fun l => c :: l)

/-- The optional effects group `(?:\s*\((.*?)\))?` tried at a position:
`none` when the group does not match there (the regex then matches without
it, leaving the capture `undefined`). -/
def effCapture (cs : List Char) : Option (List Char) :=
  match dropWs cs with
  | '(' :: rest => lazyUntilParen rest
  | _ => none

/-- After a successful `\s*->`: match `\s*(\S+)` and then try the optional
effects group.  Fails when no non-whitespace character follows the arrow. -/
def afterArrow (rest : List Char) : Option (List Char × Option (List Char)) :=
  let r := dropWs rest
  let tok := takeNonWs r
  if tok.isEmpty then none
  else some (tok, effCapture (r.drop tok.length))

/-- The lazy label group `(.*?)`: at each position first try
`\s*->\s*(\S+)(group?)`; on failure consume one more character into the label
(`.` cannot cross a line terminator). Returns (label, target, effects capture). -/
def scanChoice (acc : List Char) (cs : List Char) :
    Option (List Char × List Char × Option (List Char)) :=
  match matchArrow cs with
  | some rest =>
    match afterArrow rest with
    | some (tok, eff) => some (acc.reverse, tok, eff)
    | none =>
      match cs with
      | [] => none
      | c :: t => if c = '\n' || c = '\r' then none else scanChoice (c :: acc) t
  | none =>
    match cs with
    | [] => none
    | c :: t => if c = '\n' || c = '\r' then none else scanChoice (c :: acc) t

/-- Separator class of `effStr.split(/[, ]+/)`: a comma or a space. -/
def isSep (c : Char) : Bool := c = ',' || c = ' '

/-- Splitting the effects capture on runs of `[, ]`, dropping empty tokens
(the code skips them with `if (!eff) continue`). -/
def splitToksAux : List Char → List Char → List (List Char)
  | [], acc => if acc.isEmpty then [] else [acc.reverse]
  | c :: t, acc =>
    if isSep c then
      if acc.isEmpty then splitToksAux t [] else acc.reverse :: splitToksAux t []
    else splitToksAux t (c :: acc)

/-- `effStr.split(/[, ]+/)` with empty tokens dropped. -/
def splitToks (cs : List Char) : List (List Char) := splitToksAux cs []

/-- The variable-name character class `[a-zA-Z_]`. -/
def isNameChar (c : Char) : Bool :=
  ('a' ≤ c && c ≤ 'z') || ('A' ≤ c && c ≤ 'Z') || c = '_'

/-- One effect token matched against `/^([+-]?)([a-zA-Z_]+)/`:
`effects[name] = sign === "-" ? -1 : 1`.  `none` when the token has no
name-character run after the optional sign (such tokens are skipped). -/
def parseEffToken (cs : List Char) : Option (String × Int) :=
  if cs.head? = some '-' then
    if ((cs.drop 1).takeWhile isNameChar).isEmpty then none
    else some (String.mk ((cs.drop 1).takeWhile isNameChar), -1)
  else if cs.head? = some '+' then
    if ((cs.drop 1).takeWhile isNameChar).isEmpty then none
    else some (String.mk ((cs.drop 1).takeWhile isNameChar), 1)
  else
    if (cs.takeWhile isNameChar).isEmpty then none
    else some (String.mk (cs.takeWhile isNameChar), 1)

/-- The effects-object accumulation loop: `effects[mm[2]] = mm[1] === "-" ? -1 : 1`
over the split tokens (assignment is an upsert on the JS object). -/
def buildEffects (toks : List (List Char)) : List (String × Int) :=
  toks.foldl
    (fun acc t =>
      match parseEffToken t with
      | some (k, d) => upsert acc k d
      | none => acc)
    []

/-- A whole (already trimmed) choice line: the anchored `^>` then the scanner
above; `effects` is `undefined` when the object ends up empty
(`Object.keys(effects).length ? effects : undefined` — an absent or empty
capture gives the same result). -/
def parseChoiceChars (cs : List Char) : Option Choice :=
  match cs with
  | '>' :: rest =>
    match scanChoice [] (dropWs rest) with
    | some (label, tok, effCap) =>
      some { text := String.mk label, next := String.mk tok,
             effects := if (buildEffects (splitToks (effCap.getD []))).isEmpty then none
                        else some (buildEffects (splitToks (effCap.getD []))) }
    | none => none
  | _ => none

/-- `line.split(" ")[1]` (the scene/ending identifier on a marker line). -/
def secondWord (cs : List Char) : String :=
  String.mk (((cs.dropWhile (fun c => c ≠ ' ')).drop 1).takeWhile (fun c => c ≠ ' '))

/-- The parser's accumulator: the scenes pushed so far and the scene
currently being accumulated (`current`). -/
structure ParseState where
  scenes : List PScene
  current : Option PScene
deriving DecidableEq, Repr

/-- `if (current) scenes.push(current)`. -/
def pushCurrent (st : ParseState) : List PScene :=
  match st.current with
  | some c => st.scenes ++ [c]
  | none => st.scenes

/-- The body of the parser loop, applied to the already trimmed line. -/
def processTrimmed (st : ParseState) (cs : List Char) : ParseState :=
  if cs.isEmpty then st
  else if ("#scene ".data).isPrefixOf cs then
    { scenes := pushCurrent st, current := some (.scene (secondWord cs) [] []) }
  else if ("#ending ".data).isPrefixOf cs then
    { scenes := pushCurrent st, current := some (.ending (secondWord cs) "" []) }
  else if (">".data).isPrefixOf cs then
    match st.current with
    | some (.scene sid sbody schoices) =>
      match parseChoiceChars cs with
      | some c => { st with current := some (.scene sid sbody (schoices ++ [c])) }
      | none => st
    | _ => st
  else
    match st.current with
    | some (.ending eid etitle ebody) =>
      if etitle = "" && ("엔딩:".data).isPrefixOf cs then
        { st with current := some (.ending eid (String.mk cs) ebody) }
      else
        { st with current := some (.ending eid etitle (ebody ++ [String.mk cs])) }
    | some (.scene sid sbody schoices) =>
      { st with current := some (.scene sid (sbody ++ [String.mk cs]) schoices) }
    | none => st

/-- One iteration of the parser loop `for (const raw of lines)` (the
`const line = raw.trim()` step then the dispatch), shared verbatim between
`onTxtUpload` (solo) and `parseTxtToScenario` (lobby). -/
def processLine (st : ParseState) (raw : String) : ParseState :=
  processTrimmed st (trimChars raw.data)

/-- The whole line loop plus the final `if (current) scenes.push(current)`. -/
def parseTxtScenes (lines : List String) : List PScene :=
  pushCurrent (lines.foldl processLine { scenes := [], current := none })

/-! ## Post-parse validation (`validateScenario`)

`validateScenario` takes untyped JSON (`data: any`), so it is modelled over a
small JSON value type.  The duo room loader carries the three-check variant;
the solo importer and the lobby (`parseTxtToScenario`) carry the variant with
the additional start-id check. -/

/-- A JSON value as seen by `validateScenario(data: any)`. -/
inductive JVal where
  | jnull
  | jundefined
  | jbool (b : Bool)
  | jnum (n : Int)
  | jstr (s : String)
  | jarr (elems : List JVal)
  | jobj (fields : List (String × JVal))

/-- JS truthiness of a value (`!data` is its negation). -/
def truthy : JVal → Bool
  | .jnull => false
  | .jundefined => false
  | .jbool b => b
  | .jnum n => n != 0
  | .jstr s => s != ""
  | .jarr _ => true
  | .jobj _ => true

/-- `typeof data === "object"` restricted to the truthy values the check can
reach (arrays are `typeof "object"` in JS). -/
def isObjLike : JVal → Bool
  | .jobj _ => true
  | .jarr _ => true
  | _ => false

/-- JS property read `data[k]` on a parsed JSON value (`undefined` when the
key is missing or the value is not an object). -/
def getField : JVal → String → JVal
  | .jobj fields, k => ((fields.find? (fun p => p.1 == k)).map (fun p => p.2)).getD .jundefined
  | _, _ => .jundefined

/-- `typeof v === "string"`. -/
def isStr : JVal → Bool
  | .jstr _ => true
  | _ => false

/-- `Array.isArray(v)`. -/
def isArr : JVal → Bool
  | .jarr _ => true
  | _ => false

/-- The elements of an array value. -/
def arrElems : JVal → List JVal
  | .jarr l => l
  | _ => []

/-- Strict equality `===` between values taken from a freshly parsed JSON
tree: primitives compare by value; two distinct composite nodes are distinct
references, hence never strictly equal. -/
def jeqPrim : JVal → JVal → Bool
  | .jstr a, .jstr b => a == b
  | .jnum a, .jnum b => a == b
  | .jbool a, .jbool b => a == b
  | .jnull, .jnull => true
  | .jundefined, .jundefined => true
  | _, _ => false

/-- The field value as a string, when it is one (used to state counterexamples). -/
def strAt (v : JVal) (k : String) : Option String :=
  match getField v k with
  | .jstr s => some s
  | _ => none

/-- `validateScenario` as it appears in the duo room loader: type/presence
checks only. -/
def validateScenarioRoom (data : JVal) : Except String Unit :=
  if !truthy data || !isObjLike data then .error "JSON이 아닙니다."
  else if !isStr (getField data "title") then .error "title 누락"
  else if !isStr (getField data "start") then .error "start 누락"
  else if !isArr (getField data "scenes") then .error "scenes 배열 누락"
  else .ok ()

/-- `validateScenario` as it appears in the solo importer and the lobby: the
same checks plus `scenes.some(s => s.id === data.start)`. -/
def validateScenarioStrict (data : JVal) : Except String Unit :=
  if !truthy data || !isObjLike data then .error "JSON이 아닙니다."
  else if !isStr (getField data "title") then .error "title 누락"
  else if !isStr (getField data "start") then .error "start 누락"
  else if !isArr (getField data "scenes") then .error "scenes 배열 누락"
  else if !((arrElems (getField data "scenes")).any
      (fun s => jeqPrim (getField s "id") (getField data "start"))) then
    .error "start와 일치하는 장면 id가 없습니다."
  else .ok ()

/-! ## Example inputs used by witnesses and counterexamples -/

/-- A scenario document whose `title` is the empty string (but present and of
string type), with a valid `start`/`scenes` pair — used against C7. -/
def c7Doc : JVal :=
  .jobj [("title", .jstr ""), ("start", .jstr "s"),
         ("scenes", .jarr [.jobj [("id", .jstr "s")]])]

/-- A concrete low-version state (for the C1 witness). -/
def exS1 : SharedState :=
  { sceneId := "start", vars := [("hp", 2)], turn := .P1, version := 1 }

/-- A concrete higher-version state (for the C1 witness). -/
def exS2 : SharedState :=
  { sceneId := "left", vars := [("hp", 3)], turn := .P2, version := 2 }

/-- A concrete scenario (for the C3 counterexample). -/
def c3Scenario : Scenario :=
  { title := "demo", start := "start", scenes := [] }

/-- A concrete local state from which the restart button is pressed
(for the C3 counterexample). -/
def c3State : SharedState :=
  { sceneId := "end1", vars := [("hp", 1)], turn := .P2, version := 5 }

/-- A concrete parser state in the middle of a scene (for the C6 witness). -/
def c6State : ParseState :=
  { scenes := [], current := some (.scene "s" [] []) }

/-- A concrete narrative-log message (for the C8 and C10 witnesses). -/
def exMsg : Message :=
  { id := "m1", role := .P1, name := "A", sceneId := "start",
    choiceText := "go", text := "hello", ts := 10 }

/-- A second concrete message with a different id (for the C10 witness). -/
def exMsg2 : Message :=
  { id := "m2", role := .P2, name := "B", sceneId := "start",
    choiceText := "stay", text := "hi", ts := 20 }

/-! ## Theorems -/

/-! ### EffectLedger lemmas -/

theorem lookupVar_upsert (l : List (String × Int)) (k k' : String) (v : Int) :
    lookupVar (upsert l k v) k' = if k' = k then some v else lookupVar l k' := by
  induction l with
  | nil =>
    by_cases h : k' = k
    · subst h
      simp [upsert, lookupVar]
    · have hb : (k == k') = false := by
        simp only [beq_eq_false_iff_ne, ne_eq]
        exact fun hh => h hh.symm
      simp [upsert, lookupVar, hb, h]
  | cons p t ih =>
    by_cases hpk : p.1 = k
    · have hb : (p.1 == k) = true := by simp [beq_iff_eq, hpk]
      by_cases hk : k' = k
      · subst hk
        simp [upsert, lookupVar, hb, beq_iff_eq, hpk]
      · have hkk' : (k == k') = false := by
          simp only [beq_eq_false_iff_ne, ne_eq]
          exact fun hh => hk hh.symm
        have hb2 : (p.1 == k') = false := by
          simp only [beq_eq_false_iff_ne, ne_eq, hpk]
          exact fun hh => hk hh.symm
        simp [upsert, lookupVar, hb, hkk', hb2, hk]
    · have hb : (p.1 == k) = false := by
        simp only [beq_eq_false_iff_ne, ne_eq]
        exact hpk
      by_cases hpk' : p.1 = k'
      · have hb' : (p.1 == k') = true := by simp [beq_iff_eq, hpk']
        have hk : ¬ k' = k := fun hh => hpk (hpk'.trans hh)
        simp [upsert, lookupVar, hb, hb', hk]
      · have hb' : (p.1 == k') = false := by
          simp only [beq_eq_false_iff_ne, ne_eq]
          exact hpk'
        simp [upsert, lookupVar, hb, hb', ih]

theorem sumAt_eq_zero_of_not_mem (k : String) (es : List (String × Int))
    (h : k ∉ es.map Prod.fst) : sumAt k es = 0 := by
  induction es with
  | nil => rfl
  | cons a t ih =>
    simp only [List.map_cons, List.mem_cons, not_or] at h
    have : a.1 ≠ k := fun hk => h.1 hk.symm
    simp [sumAt, this, ih h.2]

/-- Key characterization of the effects loop: the value of each variable after
`applyEffectsList` is its prior value (default 0) plus the total delta from the
effects list, and variables not named by the effects keep their prior binding. -/
theorem lookupVar_applyEffectsList (es : List (String × Int)) :
    ∀ (vars : List (String × Int)) (k : String),
      lookupVar (applyEffectsList vars es) k =
        if k ∈ es.map Prod.fst then some ((lookupVar vars k).getD 0 + sumAt k es)
        else lookupVar vars k := by
  induction es with
  | nil =>
    intro vars k
    simp [applyEffectsList]
  | cons a t ih =>
    intro vars k
    have step : applyEffectsList vars (a :: t)
        = applyEffectsList (upsert vars a.1 ((lookupVar vars a.1).getD 0 + a.2)) t := rfl
    rw [step, ih, lookupVar_upsert]
    by_cases hk : k = a.1
    · subst hk
      by_cases hmem : a.1 ∈ t.map Prod.fst
      · simp [sumAt, hmem, add_assoc]
      · simp [sumAt, hmem, sumAt_eq_zero_of_not_mem a.1 t hmem]
    · have hk2 : ¬ a.1 = k := fun hh => hk hh.symm
      have hmiff : (k ∈ a.1 :: List.map Prod.fst t) ↔ (k ∈ List.map Prod.fst t) := by
        simp [List.mem_cons, hk]
      have hsum : sumAt k (a :: t) = sumAt k t := by simp [sumAt, hk2]
      simp only [List.map_cons, hsum, hk, ite_false]
      by_cases hmem : k ∈ List.map Prod.fst t
      · rw [if_pos hmem, if_pos (hmiff.mpr hmem)]
      · rw [if_neg hmem, if_neg (fun hh => hmem (hmiff.mp hh))]

theorem sumAt_of_nodup (es : List (String × Int)) (k : String) (v : Int)
    (hnd : (es.map Prod.fst).Nodup) (hmem : (k, v) ∈ es) : sumAt k es = v := by
  induction es with
  | nil => simp at hmem
  | cons a t ih =>
    simp only [List.map_cons, List.nodup_cons] at hnd
    rcases List.mem_cons.mp hmem with h | h
    · subst h
      have hnotin : k ∉ t.map Prod.fst := hnd.1
      simp [sumAt, sumAt_eq_zero_of_not_mem k t hnotin]
    · have hk : ¬ a.1 = k := by
        intro hak
        have hkmem : k ∈ t.map Prod.fst := List.mem_map.mpr ⟨(k, v), h, rfl⟩
        have : a.1 ∈ t.map Prod.fst := by rw [hak]; exact hkmem
        exact hnd.1 this
      simp [sumAt, hk, ih hnd.2 h]

theorem lookupVar_applyEffects_swap (vars e1 e2 : List (String × Int)) (k : String) :
    lookupVar (applyEffects (applyEffects vars (some e1)) (some e2)) k =
    lookupVar (applyEffects (applyEffects vars (some e2)) (some e1)) k := by
  show lookupVar (applyEffectsList (applyEffectsList vars e1) e2) k
      = lookupVar (applyEffectsList (applyEffectsList vars e2) e1) k
  rw [lookupVar_applyEffectsList, lookupVar_applyEffectsList,
    lookupVar_applyEffectsList, lookupVar_applyEffectsList]
  by_cases h1 : k ∈ e1.map Prod.fst
  · by_cases h2 : k ∈ e2.map Prod.fst
    · simp only [h1, h2, ite_true, Option.getD_some]
      congr 1
      ring
    · simp [h1, h2]
  · by_cases h2 : k ∈ e2.map Prod.fst
    · simp [h1, h2]
    · simp [h1, h2]

theorem lookupVar_applyEffectsList_congr (es : List (String × Int))
    (a b : List (String × Int)) (h : ∀ k, lookupVar a k = lookupVar b k) (k : String) :
    lookupVar (applyEffectsList a es) k = lookupVar (applyEffectsList b es) k := by
  rw [lookupVar_applyEffectsList, lookupVar_applyEffectsList, h k]

theorem lookupVar_applySeq_congr (l : List (List (String × Int))) :
    ∀ (a b : List (String × Int)), (∀ k, lookupVar a k = lookupVar b k) →
      ∀ k, lookupVar (applySeq a l) k = lookupVar (applySeq b l) k := by
  induction l with
  | nil => intro a b h k; exact h k
  | cons e t ih =>
    intro a b h k
    show lookupVar (applySeq (applyEffects a (some e)) t) k
        = lookupVar (applySeq (applyEffects b (some e)) t) k
    exact ih _ _ (fun k' => lookupVar_applyEffectsList_congr e a b h k') k

theorem lookupVar_applySeq_perm {l1 l2 : List (List (String × Int))}
    (hp : l1.Perm l2) :
    ∀ (vars : List (String × Int)) (k : String),
      lookupVar (applySeq vars l1) k = lookupVar (applySeq vars l2) k := by
  induction hp with
  | nil => intro vars k; rfl
  | cons e _ ih =>
    intro vars k
    exact ih (applyEffects vars (some e)) k
  | swap e1 e2 l =>
    intro vars k
    show lookupVar (applySeq (applyEffects (applyEffects vars (some e2)) (some e1)) l) k
        = lookupVar (applySeq (applyEffects (applyEffects vars (some e1)) (some e2)) l) k
    exact lookupVar_applySeq_congr l _ _
      (fun k' => lookupVar_applyEffects_swap vars e2 e1 k') k
  | trans _ _ ih1 ih2 =>
    intro vars k
    exact (ih1 vars k).trans (ih2 vars k)

/-! ### Claim C4 -/

/-- **C4.** `applyEffects` adds each effect delta onto the prior value of its
variable (defaulting to 0 when the variable is absent), leaves every variable
not named in the effects untouched, and returns `vars` itself when the effects
object is absent. -/
theorem apply_effects_pointwise_spec (vars es : List (String × Int))
    (hnd : (es.map Prod.fst).Nodup) :
    (∀ k v, (k, v) ∈ es →
      lookupVar (applyEffects vars (some es)) k = some ((lookupVar vars k).getD 0 + v)) ∧
    (∀ k, k ∉ es.map Prod.fst →
      lookupVar (applyEffects vars (some es)) k = lookupVar vars k) ∧
    applyEffects vars none = vars := by
  refine ⟨?_, ?_, rfl⟩
  · intro k v hmem
    have hk : k ∈ es.map Prod.fst := List.mem_map.mpr ⟨(k, v), hmem, rfl⟩
    show lookupVar (applyEffectsList vars es) k = _
    rw [lookupVar_applyEffectsList, if_pos hk, sumAt_of_nodup es k v hnd hmem]
  · intro k hk
    show lookupVar (applyEffectsList vars es) k = _
    rw [lookupVar_applyEffectsList, if_neg hk]

/-- Witness for C4: on `vars = {hp: 2}` and `effects = {hp: 3, mp: -1}`, the
updated variable takes its old value plus the delta and an untouched variable
keeps its (absent) binding. -/
theorem apply_effects_pointwise_spec_witness :
    lookupVar (applyEffects [("hp", (2 : Int))] (some [("hp", 3), ("mp", -1)])) "hp"
      = some ((lookupVar [("hp", (2 : Int))] "hp").getD 0 + 3) ∧
    lookupVar (applyEffects [("hp", (2 : Int))] (some [("hp", 3), ("mp", -1)])) "xp"
      = lookupVar [("hp", (2 : Int))] "xp" :=
  ⟨(apply_effects_pointwise_spec [("hp", 2)] [("hp", 3), ("mp", -1)] (by decide)).1
      "hp" 3 (by decide),
   (apply_effects_pointwise_spec [("hp", 2)] [("hp", 3), ("mp", -1)] (by decide)).2.1
      "xp" (by decide)⟩

/-! ### Claim C5 -/

/-- **C5.** Ledger application is commutative across independently applied
effect maps — `applyEffects (applyEffects vars e1) e2` and
`applyEffects (applyEffects vars e2) e1` agree on every variable — and, as a
consequence, applying any permutation of a fixed multiset of effect maps
yields the same final variable mapping. -/
theorem apply_effects_order_independent (vars e1 e2 : List (String × Int)) :
    (∀ k, lookupVar (applyEffects (applyEffects vars (some e1)) (some e2)) k
        = lookupVar (applyEffects (applyEffects vars (some e2)) (some e1)) k) ∧
    (∀ (l1 l2 : List (List (String × Int))), l1.Perm l2 →
      ∀ k, lookupVar (applySeq vars l1) k = lookupVar (applySeq vars l2) k) := by
  constructor
  · intro k
    exact lookupVar_applyEffects_swap vars e1 e2 k
  · intro l1 l2 hp k
    exact lookupVar_applySeq_perm hp vars k

/-- Witness for C5: two singleton effect maps on the variables `a` and `b`
commute at `a`, and the two orderings of the effect-map sequence
`[{a: 1}, {a: 2}]` give the same accumulated value of `a`. -/
theorem apply_effects_order_independent_witness :
    lookupVar (applyEffects (applyEffects [] (some [("a", (1 : Int))])) (some [("b", 2)])) "a"
      = lookupVar (applyEffects (applyEffects [] (some [("b", (2 : Int))])) (some [("a", 1)])) "a" ∧
    lookupVar (applySeq [] [[("a", (1 : Int))], [("a", 2)]]) "a"
      = lookupVar (applySeq [] [[("a", (2 : Int))], [("a", 1)]]) "a" :=
  ⟨(apply_effects_order_independent [] [("a", 1)] [("b", 2)]).1 "a",
   (apply_effects_order_independent [] [] []).2
      [[("a", 1)], [("a", 2)]] [[("a", 2)], [("a", 1)]]
      (List.Perm.swap [("a", 2)] [("a", 1)] []) "a"⟩

/-! ### Claims C8 and C10 (NarrativeLog) -/

theorem insertTs_any (m : Message) (l : List Message) (p : Message → Bool) :
    (insertTs m l).any p = (p m || l.any p) := by
  induction l with
  | nil => simp [insertTs]
  | cons x t ih =>
    by_cases h : m.ts ≤ x.ts
    · simp [insertTs, h]
    · simp [insertTs, h, ih]
      cases p x <;> cases p m <;> simp

theorem sortByTs_any (l : List Message) (p : Message → Bool) :
    (sortByTs l).any p = l.any p := by
  induction l with
  | nil => rfl
  | cons x t ih => simp [sortByTs, insertTs_any, ih]

/-- **C8.** The `msg:add` merge is idempotent on message id: when an entry with
the incoming id is already present the log is returned unchanged; when it is
absent the message is inserted and the log re-sorted by timestamp; and
applying the same `msg:add` payload twice yields the same log as applying it
once. -/
theorem msg_add_idempotent (logs : List Message) (m : Message) :
    (logs.any (fun x => x.id == m.id) = true → receiveMsgAdd logs m = logs) ∧
    (logs.any (fun x => x.id == m.id) = false →
      receiveMsgAdd logs m = sortByTs (logs ++ [m])) ∧
    receiveMsgAdd (receiveMsgAdd logs m) m = receiveMsgAdd logs m := by
  refine ⟨?_, ?_, ?_⟩
  · intro h
    simp [receiveMsgAdd, h]
  · intro h
    simp [receiveMsgAdd, h]
  · by_cases h : logs.any (fun x => x.id == m.id) = true
    · simp [receiveMsgAdd, h]
    · have h1 : receiveMsgAdd logs m = sortByTs (logs ++ [m]) := by
        simp [receiveMsgAdd, h]
      have h2 : (sortByTs (logs ++ [m])).any (fun x => x.id == m.id) = true := by
        rw [sortByTs_any]
        simp [List.any_append]
      rw [h1]
      simp [receiveMsgAdd, h2]

/-- Witness for C8: adding a message whose id is already present leaves the
concrete log unchanged, and a duplicate delivery of the same payload to an
empty log yields exactly the log of the first delivery. -/
theorem msg_add_idempotent_witness :
    receiveMsgAdd [exMsg] exMsg = [exMsg] ∧
    receiveMsgAdd (receiveMsgAdd [] exMsg) exMsg = receiveMsgAdd [] exMsg :=
  ⟨(msg_add_idempotent [exMsg] exMsg).1 (by decide),
   (msg_add_idempotent [] exMsg).2.2⟩

/-- **C10.** Receiving `msg:update` for an id not present in the local log is
a no-op (the log is unchanged and no entry is created), and when the id is
present the matching entry — and only that entry — is replaced by the payload
with `edited` forced to `true` (pointwise over every log position). -/
theorem msg_update_spec (logs : List Message) (m : Message) :
    (logs.all (fun x => x.id != m.id) = true → receiveMsgUpdate logs m = logs) ∧
    (∀ i : Nat, (receiveMsgUpdate logs m)[i]?
      = logs[i]?.map (fun x => if x.id == m.id then { m with edited := true } else x)) := by
  constructor
  · induction logs with
    | nil => intro h; rfl
    | cons x t ih =>
      intro h
      simp only [List.all_cons, Bool.and_eq_true] at h
      have hx : (x.id == m.id) = false := by
        have h1 := h.1
        simp only [bne_iff_ne, ne_eq] at h1
        simp only [beq_eq_false_iff_ne, ne_eq]
        exact h1
      have hxeq : (if x.id == m.id then { m with edited := true } else x) = x := by
        simp [hx]
      show List.map (fun y => if y.id == m.id then { m with edited := true } else y) (x :: t)
          = x :: t
      rw [List.map_cons, hxeq]
      have ht : receiveMsgUpdate t m = t := ih h.2
      unfold receiveMsgUpdate at ht
      rw [ht]
  · intro i
    unfold receiveMsgUpdate
    exact List.getElem?_map _ logs i

/-- Witness for C10: updating a log that does not contain the payload's id is
a no-op on a concrete log. -/
theorem msg_update_spec_witness :
    receiveMsgUpdate [exMsg2] exMsg = [exMsg2] :=
  (msg_update_spec [exMsg2] exMsg).1 (by decide)

/-! ### Claim C6 (ScenarioCompiler choice lines) -/

theorem parseEffToken_sign (cs : List Char) (nm : String) (d : Int)
    (h : parseEffToken cs = some (nm, d)) :
    d = if cs.head? = some '-' then -1 else 1 := by
  unfold parseEffToken at h
  by_cases hc : cs.head? = some '-'
  · rw [if_pos hc] at h
    rw [if_pos hc]
    split at h
    · exact absurd h (by simp)
    · simp only [Option.some.injEq, Prod.mk.injEq] at h
      exact h.2.symm
  · rw [if_neg hc] at h
    rw [if_neg hc]
    by_cases hc2 : cs.head? = some '+'
    · rw [if_pos hc2] at h
      split at h
      · exact absurd h (by simp)
      · simp only [Option.some.injEq, Prod.mk.injEq] at h
        exact h.2.symm
    · rw [if_neg hc2] at h
      split at h
      · exact absurd h (by simp)
      · simp only [Option.some.injEq, Prod.mk.injEq] at h
        exact h.2.symm

theorem parseEffToken_vals (cs : List Char) (k : String) (d : Int)
    (h : parseEffToken cs = some (k, d)) : d = -1 ∨ d = 1 := by
  have hs := parseEffToken_sign cs k d h
  by_cases hc : cs.head? = some '-'
  · left
    rw [hs, if_pos hc]
  · right
    rw [hs, if_neg hc]

theorem upsert_mem_vals (l : List (String × Int)) (k : String) (v : Int)
    (P : Int → Prop) (hl : ∀ p ∈ l, P p.2) (hv : P v) :
    ∀ p ∈ upsert l k v, P p.2 := by
  induction l with
  | nil =>
    intro p hp
    simp only [upsert, List.mem_singleton] at hp
    rw [hp]
    exact hv
  | cons a t ih =>
    intro p hp
    by_cases hak : (a.1 == k) = true
    · simp only [upsert, hak, ite_true] at hp
      rcases List.mem_cons.mp hp with rfl | hpt
      · exact hv
      · exact hl p (List.mem_cons.mpr (Or.inr hpt))
    · simp only [upsert, hak, ite_false, Bool.false_eq_true] at hp
      rcases List.mem_cons.mp hp with rfl | hpt
      · exact hl p (List.mem_cons.mpr (Or.inl rfl))
      · exact ih (fun q hq => hl q (List.mem_cons.mpr (Or.inr hq))) p hpt

theorem foldEffects_vals (toks : List (List Char)) :
    ∀ (acc : List (String × Int)),
      (∀ p ∈ acc, p.2 = -1 ∨ p.2 = (1 : Int)) →
      ∀ p ∈ toks.foldl
        (fun acc t =>
          match parseEffToken t with
          | some (k, d) => upsert acc k d
          | none => acc) acc,
        p.2 = -1 ∨ p.2 = (1 : Int) := by
  induction toks with
  | nil =>
    intro acc hacc p hp
    exact hacc p hp
  | cons t ts ih =>
    intro acc hacc p hp
    rw [List.foldl_cons] at hp
    cases hpt : parseEffToken t with
    | none =>
      rw [hpt] at hp
      exact ih acc hacc p hp
    | some kd =>
      rw [hpt] at hp
      refine ih _ ?_ p hp
      exact upsert_mem_vals acc kd.1 kd.2 (fun z => z = -1 ∨ z = (1 : Int)) hacc
        (parseEffToken_vals t kd.1 kd.2 (by rw [hpt]))

theorem buildEffects_vals (toks : List (List Char)) :
    ∀ p ∈ buildEffects toks, p.2 = -1 ∨ p.2 = (1 : Int) :=
  foldEffects_vals toks [] (by intro p hp; simp at hp)

theorem parseChoiceChars_effect_vals (cs : List Char) (c : Choice)
    (es : List (String × Int)) (k : String) (d : Int)
    (h1 : parseChoiceChars cs = some c) (h2 : c.effects = some es)
    (hmem : (k, d) ∈ es) : d = -1 ∨ d = 1 := by
  unfold parseChoiceChars at h1
  split at h1
  case h_2 => exact absurd h1 (by simp)
  case h_1 c0 rest =>
    split at h1
    case h_2 => exact absurd h1 (by simp)
    case h_1 label tok effCap heq =>
      have hc := Option.some.inj h1
      rw [← hc] at h2
      simp only at h2
      split at h2
      · exact absurd h2 (by simp)
      · have hes := Option.some.inj h2
        rw [← hes] at hmem
        have := buildEffects_vals (splitToks (effCap.getD [])) (k, d) hmem
        exact this

theorem gt_marker_matches (t : List Char) :
    ((">".data).isPrefixOf ('>' :: t)) = true := by
  show ('>' == '>' && List.isPrefixOf [] t) = true
  simp [List.isPrefixOf]

theorem scene_marker_not_gt (t : List Char) :
    (("#scene ".data).isPrefixOf ('>' :: t)) = false := rfl

theorem ending_marker_not_gt (t : List Char) :
    (("#ending ".data).isPrefixOf ('>' :: t)) = false := rfl

theorem processTrimmed_gt_unmatched (st : ParseState) (t : List Char)
    (h2 : parseChoiceChars ('>' :: t) = none) :
    processTrimmed st ('>' :: t) = st := by
  cases hc : st.current with
  | none =>
    simp [processTrimmed, hc, scene_marker_not_gt, ending_marker_not_gt, gt_marker_matches]
  | some ps =>
    cases ps with
    | scene sid sbody schoices =>
      simp [processTrimmed, hc, scene_marker_not_gt, ending_marker_not_gt,
        gt_marker_matches, h2]
    | ending eid etitle ebody =>
      simp [processTrimmed, hc, scene_marker_not_gt, ending_marker_not_gt, gt_marker_matches]

/-- **C6.** In the choice-line grammar: every effect token accepted by the
token pattern yields delta −1 exactly when it carries an explicit leading
`-` and delta +1 otherwise; a choice-marker line on which the line pattern
fails is dropped without error, leaving the parser state (and hence the
compiled scene) unchanged; and every delta stored in a parsed choice's
effects is −1 or +1. -/
theorem choice_line_parsing_spec :
    (∀ (cs : List Char) (nm : String) (d : Int), parseEffToken cs = some (nm, d) →
      d = if cs.head? = some '-' then -1 else 1) ∧
    (∀ (st : ParseState) (raw : String),
      ((">".data).isPrefixOf (trimChars raw.data)) = true →
      parseChoiceChars (trimChars raw.data) = none →
      processLine st raw = st) ∧
    (∀ (cs : List Char) (c : Choice) (es : List (String × Int)) (k : String) (d : Int),
      parseChoiceChars cs = some c → c.effects = some es → (k, d) ∈ es →
      d = -1 ∨ d = 1) := by
  refine ⟨parseEffToken_sign, ?_, parseChoiceChars_effect_vals⟩
  intro st raw h1 h2
  obtain ⟨t, hcs⟩ : ∃ t, trimChars raw.data = '>' :: t := by
    cases hcase : trimChars raw.data with
    | nil =>
      rw [hcase] at h1
      exact absurd h1 (by decide)
    | cons c0 t =>
      rw [hcase] at h1
      have h1' : ('>' == c0 && List.isPrefixOf [] t) = true := h1
      simp only [List.isPrefixOf, Bool.and_true, beq_iff_eq] at h1'
      exact ⟨t, by rw [← h1']⟩
  show processTrimmed st (trimChars raw.data) = st
  rw [hcs] at h2 ⊢
  exact processTrimmed_gt_unmatched st t h2

/-- Witness for C6: the token `-x` yields delta −1; the malformed choice line
`> broken line` (no arrow) leaves a concrete parser state unchanged; and the
delta parsed from `> go -> left (-x)` is −1 (hence in {−1, +1}). -/
theorem choice_line_parsing_spec_witness :
    ((-1 : Int) = if ("-x".data).head? = some '-' then -1 else 1) ∧
    processLine c6State "> broken line" = c6State ∧
    ((-1 : Int) = -1 ∨ (-1 : Int) = 1) :=
  ⟨choice_line_parsing_spec.1 "-x".data "x" (-1) (by decide),
   choice_line_parsing_spec.2.1 c6State "> broken line" (by decide) (by decide),
   choice_line_parsing_spec.2.2 "> go -> left (-x)".data
     { text := "go", next := "left", effects := some [("x", -1)] } [("x", -1)] "x" (-1)
     (by decide) (by decide) (by decide)⟩

/-! ### Claim C7 (post-parse validation) -/

/-- **C7, counterexample.** A document whose `title` is the empty string — the
claim demands that validation reject it — passes both the strict
(standalone/import) validator and the in-session loader's validator. -/
theorem validate_accepts_empty_title :
    strAt c7Doc "title" = some "" ∧
    validateScenarioStrict c7Doc = Except.ok () ∧
    validateScenarioRoom c7Doc = Except.ok () :=
  ⟨rfl, rfl, rfl⟩

/-- **C7, amended.** Validation succeeds exactly when the document is a truthy
object/array whose `title` and `start` are of string type and whose `scenes`
is an array — emptiness of `title`, `start` or `scenes` is never itself
checked — and the standalone/import validator additionally requires (and only
it requires) that some scene's `id` is strictly equal to `start` (which
incidentally rejects an empty `scenes` array in that path only). -/
theorem validate_scenario_characterization (d : JVal) :
    (validateScenarioRoom d = Except.ok () ↔
      (truthy d = true ∧ isObjLike d = true ∧
       isStr (getField d "title") = true ∧ isStr (getField d "start") = true ∧
       isArr (getField d "scenes") = true)) ∧
    (validateScenarioStrict d = Except.ok () ↔
      (validateScenarioRoom d = Except.ok () ∧
       (arrElems (getField d "scenes")).any
         (fun s => jeqPrim (getField s "id") (getField d "start")) = true)) := by
  cases h1 : truthy d <;> cases h2 : isObjLike d <;>
    cases h3 : isStr (getField d "title") <;> cases h4 : isStr (getField d "start") <;>
    cases h5 : isArr (getField d "scenes") <;>
    cases h6 : (arrElems (getField d "scenes")).any
      (fun s => jeqPrim (getField s "id") (getField d "start")) <;>
    simp [validateScenarioRoom, validateScenarioStrict, h1, h2, h3, h4, h5, h6]

/-- **C1.** With a local state present, the `state:update` handler adopts the
incoming payload exactly when its version is strictly greater; a payload with
an equal or lower version leaves the local state completely unchanged. -/
theorem state_update_last_writer_wins (loc p : SharedState) :
    (loc.version < p.version → receiveStateUpdate (some loc) p = some p) ∧
    (p.version ≤ loc.version → receiveStateUpdate (some loc) p = some loc) := by
  constructor
  · intro h
    simp [receiveStateUpdate, h]
  · intro h
    simp [receiveStateUpdate, not_lt.mpr h]

/-- Witness for C1 at concrete states of versions 1 and 2: the broadcast of the
newer state wins in either reconciliation order. -/
theorem state_update_last_writer_wins_witness :
    receiveStateUpdate (some exS1) exS2 = some exS2 ∧
    receiveStateUpdate (some exS2) exS1 = some exS2 :=
  ⟨(state_update_last_writer_wins exS1 exS2).1 (by decide),
   (state_update_last_writer_wins exS2 exS1).2 (by decide)⟩

/-- **C9.** With no local state yet (`prev` is `null`), the `state:update`
handler adopts any incoming payload unconditionally, whatever its version. -/
theorem state_update_adopts_when_no_local_state (p : SharedState) :
    receiveStateUpdate none p = some p := rfl

/-- **C2.** Resolving a choice produces exactly the state
`{ sceneId := c.next, vars := applyEffects shared.vars c.effects,
turn := opposite shared.turn, version := shared.version + 1 }`, and that same
state is both adopted locally and broadcast as `state:update`. -/
theorem send_narrative_and_advance_spec (shared : SharedState) (c : Choice)
    (msg : Message) (logs : List Message) :
    (sendNarrativeAndAdvance shared c msg logs).localShared
      = (sendNarrativeAndAdvance shared c msg logs).stateBroadcast ∧
    (sendNarrativeAndAdvance shared c msg logs).localShared.sceneId = c.next ∧
    (sendNarrativeAndAdvance shared c msg logs).localShared.vars
      = applyEffects shared.vars c.effects ∧
    (sendNarrativeAndAdvance shared c msg logs).localShared.turn = shared.turn.opposite ∧
    (sendNarrativeAndAdvance shared c msg logs).localShared.version = shared.version + 1 := by
  refine ⟨rfl, rfl, rfl, ?_, rfl⟩
  cases h : shared.turn <;> simp [sendNarrativeAndAdvance, advanceState, h, Turn.opposite]

/-- **C3, counterexample.** The ending-screen restart button is a locally
initiated state transition that is not a turn resolution, yet it does not
leave `version` unchanged: restarting from version 5 yields version 6. -/
theorem restart_button_increments_version :
    (restartState c3Scenario (some c3State)).version ≠ c3State.version := by
  decide

/-- **C3, amended.** Turn resolution and the ending-screen restart are the two
local operations that increment `version`, each by exactly one (restart uses 0
as the base when no local state exists); initial state creation sets version 1;
and the `state:update` handler never fabricates a version — it returns either
the incoming state or the unchanged local one. -/
theorem version_increment_characterization (sh : SharedState) (c : Choice)
    (sc : Scenario) (p : SharedState) :
    (advanceState sh c).version = sh.version + 1 ∧
    (restartState sc (some sh)).version = sh.version + 1 ∧
    (restartState sc none).version = 0 + 1 ∧
    (initState sc).version = 1 ∧
    (receiveStateUpdate (some sh) p = some p ∨ receiveStateUpdate (some sh) p = some sh) := by
  refine ⟨rfl, rfl, rfl, rfl, ?_⟩
  by_cases h : p.version > sh.version
  · left
    simp [receiveStateUpdate, h]
  · right
    simp [receiveStateUpdate, h]

end StoryRoom
